import Mathlib

/-
  Verification of the ETL pipeline core of the crypto-analytics repository
  (extract.py / transform.py / load.py / database.py).

  Shallow embedding conventions:
  * Python/JSON scalar values are modelled by `Value`; Python numbers
    (int and float alike) are modelled as rationals, since Python `==`
    identifies `0` and `0.0` and every numeric literal in the code is
    exactly representable.  `datetime` timestamps are opaque naturals.
  * Python dicts are association lists in insertion order (`Record`),
    with `dictGet?` / `dictSet` mirroring `d[k]` / `d[k] = v`.
  * Fallible Python code (raising) is `Except String`.  Python `float()` /
    `int()` on a non-numeric value is modelled as a coercion failure
    (string-to-number parsing is not exercised by any property below).
-/

set_option autoImplicit false

attribute [local semireducible] Rat.mul

namespace CryptoETL

/-- Decidable equality for `Except`, used to evaluate concrete pipeline runs. -/
instance {ε α : Type} [DecidableEq ε] [DecidableEq α] : DecidableEq (Except ε α) := fun x y =>
  match x, y with
  | .ok a, .ok b =>
      if h : a = b then .isTrue (by rw [h]) else .isFalse (by simp [h])
  | .error e, .error f =>
      if h : e = f then .isTrue (by rw [h]) else .isFalse (by simp [h])
  | .ok _, .error _ => .isFalse (by simp)
  | .error _, .ok _ => .isFalse (by simp)

/-- Scalar values flowing through the pipeline: JSON null, numbers (as ℚ),
strings, and datetime timestamps. -/
inductive Value where
  | vnull
  | vnum (q : ℚ)
  | vstr (s : String)
  | vtime (t : Nat)
  deriving DecidableEq, Repr

/-- One Python dict: keys with values, in insertion order. -/
abbrev Record := List (String × Value)

/-- Lookup `k` in a record, `d.get(k)` returning `None` when absent. -/
def dictGet? (r : Record) (k : String) : Option Value :=
  match r with
  | [] => none
  | (k', v) :: rest => if k' = k then some v else dictGet? rest k

/-- Lookup with default: Python `d.get(k, default)`. -/
def dictGetD (r : Record) (k : String) (d : Value) : Value :=
  (dictGet? r k).getD d

/-- Python `k in d`. -/
def hasKey (r : Record) (k : String) : Bool :=
  (dictGet? r k).isSome

/-- Python `d[k] = v`: overwrite the existing entry, else append. -/
def dictSet (r : Record) (k : String) (v : Value) : Record :=
  match r with
  | [] => [(k, v)]
  | (k', v') :: rest =>
      if k' = k then (k', v) :: rest else (k', v') :: dictSet rest k v

/-- Python truthiness of a scalar value. -/
def truthy : Value → Bool
  | .vnull => false
  | .vnum q => if q = 0 then false else true
  | .vstr s => if s = "" then false else true
  | .vtime _ => true

/-- Python `v or d`. -/
def pyOr (v d : Value) : Value :=
  if truthy v then v else d

/-- Python `float(v)`.  Succeeds on numbers; other coercions are
modelled as failure (not exercised by the pipeline's contracts). -/
def pyFloat : Value → Option ℚ
  | .vnum q => some q
  | _ => none

/-- Python `int(v)`: truncation toward zero on numbers, failure otherwise. -/
def pyToInt : Value → Option ℤ
  | .vnum q => some (Int.tdiv q.num (q.den : ℤ))
  | _ => none

/-- Uppercase a string character by character (ASCII, which covers every
ticker symbol the pipeline handles). -/
def strUpper (s : String) : String :=
  ⟨s.data.map Char.toUpper⟩

/-- Python `s.upper()`: defined on strings only. -/
def pyUpper : Value → Option Value
  | .vstr s => some (.vstr (strUpper s))
  | _ => none

/- ------------------------------------------------------------------
   transform.py
   ------------------------------------------------------------------ -/

/-- Per-entry body of the loop in `clean_null_values` (transform.py:16-29):
nulls in the listed fields get typed defaults, everything else is kept. -/
def cleanValue (k : String) (v : Value) : Value :=
  if v = .vnull then
    if k = "current_price" ∨ k = "price_change_24h" ∨
       k = "price_change_percentage_24h" then .vnum 0
    else if k = "market_cap" ∨ k = "total_volume" then .vnum 0
    else if k = "market_cap_rank" then .vnum 9999
    else v
  else v

/-- Stage `clean_null_values` on one record: a fresh dict with the same keys in
order, each value cleaned. -/
def cleanRecord (r : Record) : Record :=
  r.map (fun kv => (kv.1, cleanValue kv.1 kv.2))

/-- Stage `clean_null_values` (transform.py:12-32). -/
def clean_null_values (data : List Record) : List Record :=
  data.map cleanRecord

/-- Shared shape of the `if k in coin: coin[k] = conv(coin[k])` steps of
`convert_numeric_fields`: absent fields are left untouched, a failing
coercion raises. -/
def convertField (r : Record) (k : String) (conv : Value → Option Value) :
    Except String Record :=
  match dictGet? r k with
  | none => .ok r
  | some v =>
      match conv v with
      | some v' => .ok (dictSet r k v')
      | none => .error ("could not convert field " ++ k)

/-- Python `float(v or 0)`. -/
def floatOrZero (v : Value) : Option Value :=
  (pyFloat (pyOr v (.vnum 0))).map .vnum

/-- Python `int(v or 0)`. -/
def intOrZero (v : Value) : Option Value :=
  (pyToInt (pyOr v (.vnum 0))).map (fun n => .vnum (n : ℚ))

/-- Python `int(v or 9999)`. -/
def intOr9999 (v : Value) : Option Value :=
  (pyToInt (pyOr v (.vnum 9999))).map (fun n => .vnum (n : ℚ))

/-- Stage `convert_numeric_fields` on one record (transform.py:35-58), in the
source's field order. -/
def convertRecord (r : Record) : Except String Record :=
  match convertField r "current_price" floatOrZero with
  | .error e => .error e
  | .ok r1 =>
      match convertField r1 "market_cap" intOrZero with
      | .error e => .error e
      | .ok r2 =>
          match convertField r2 "total_volume" intOrZero with
          | .error e => .error e
          | .ok r3 =>
              match convertField r3 "price_change_24h" floatOrZero with
              | .error e => .error e
              | .ok r4 => convertField r4 "market_cap_rank" intOr9999

/-- Stage `add_volatility_score` on one record (transform.py:60-71):
`volatility_score = abs(float(get price_change_24h or 0)) * int(get total_volume or 0)`. -/
def volRecord (r : Record) : Except String Record :=
  match pyFloat (pyOr (dictGetD r "price_change_24h" (.vnum 0)) (.vnum 0)),
        pyToInt (pyOr (dictGetD r "total_volume" (.vnum 0)) (.vnum 0)) with
  | some p, some vol =>
      .ok (dictSet r "volatility_score" (.vnum (|p| * (vol : ℚ))))
  | _, _ => .error "could not compute volatility score"

/-- Stage `add_extraction_timestamp` on one record (transform.py:74-80), with the
single per-call `datetime.now()` value passed in as `ts`. -/
def addTimestamp (ts : Nat) (r : Record) : Record :=
  dictSet r "extracted_at" (.vtime ts)

/-- Stage `select_required_fields` on one record (transform.py:83-115): projection
onto the persistence schema, renaming `id` to `coin_id` and upper-casing the
symbol.  `.upper()` on a non-string raises. -/
def selectRecord (r : Record) : Except String Record :=
  match pyUpper (dictGetD r "symbol" (.vstr "")) with
  | none => .error "symbol value has no attribute upper"
  | some sym => .ok
      [("coin_id", dictGetD r "id" (.vstr "")),
       ("symbol", sym),
       ("name", dictGetD r "name" (.vstr "")),
       ("current_price", dictGetD r "current_price" (.vnum 0)),
       ("market_cap", dictGetD r "market_cap" (.vnum 0)),
       ("total_volume", dictGetD r "total_volume" (.vnum 0)),
       ("price_change_24h", dictGetD r "price_change_24h" (.vnum 0)),
       ("market_cap_rank", dictGetD r "market_cap_rank" (.vnum 9999)),
       ("volatility_score", dictGetD r "volatility_score" (.vnum 0)),
       ("extracted_at", dictGetD r "extracted_at" .vnull)]

/-- Effectful map: a Python `for` loop whose body may raise, aborting the
whole call at the first failing element. -/
def mapE {α β : Type} (f : α → Except String β) : List α → Except String (List β)
  | [] => .ok []
  | a :: l =>
      match f a with
      | .error e => .error e
      | .ok b =>
          match mapE f l with
          | .error e => .error e
          | .ok bs => .ok (b :: bs)

/-- Pipeline `transform_data` (transform.py:118-153): the five stages in source order,
with the per-call timestamp `ts` made explicit. -/
def transform_data (ts : Nat) (raw : List Record) : Except String (List Record) :=
  match mapE convertRecord (clean_null_values raw) with
  | .error e => .error e
  | .ok d2 =>
      match mapE volRecord d2 with
      | .error e => .error e
      | .ok d3 => mapE selectRecord (d3.map (addTimestamp ts))

/-- The whole pipeline applied to a single record, for stating that
`transform_data` acts element-wise. -/
def perRecord (ts : Nat) (r : Record) : Except String Record :=
  match convertRecord (cleanRecord r) with
  | .error e => .error e
  | .ok c2 =>
      match volRecord c2 with
      | .error e => .error e
      | .ok c3 => selectRecord (addTimestamp ts c3)

/-- The sample raw record of the end-to-end scenario. -/
def bitcoinRaw : Record :=
  [("id", .vstr "bitcoin"),
   ("symbol", .vstr "btc"),
   ("name", .vstr "Bitcoin"),
   ("current_price", .vnum 50000),
   ("market_cap", .vnum 1000000000000),
   ("total_volume", .vnum 50000000000),
   ("price_change_24h", .vnum 1500),
   ("market_cap_rank", .vnum 1)]

/-- The transformed record the end-to-end scenario expects. -/
def bitcoinOut (ts : Nat) : Record :=
  [("coin_id", .vstr "bitcoin"),
   ("symbol", .vstr "BTC"),
   ("name", .vstr "Bitcoin"),
   ("current_price", .vnum 50000),
   ("market_cap", .vnum 1000000000000),
   ("total_volume", .vnum 50000000000),
   ("price_change_24h", .vnum 1500),
   ("market_cap_rank", .vnum 1),
   ("volatility_score", .vnum 75000000000000),
   ("extracted_at", .vtime ts)]

/- ------------------------------------------------------------------
   load.py and the crypto_market table (database.py)
   ------------------------------------------------------------------ -/

/-- One row of the `crypto_market` table (database.py:68-83), surrogate `id`
column omitted; `UNIQUE(coin_id, extracted_at)` is enforced by `upsert`. -/
structure Row where
  coin_id : Value
  symbol : Value
  name : Value
  current_price : Value
  market_cap : Value
  total_volume : Value
  price_change_24h : Value
  market_cap_rank : Value
  volatility_score : Value
  extracted_at : Value
  deriving DecidableEq, Repr

/-- The conflict key of the upsert: `(coin_id, extracted_at)`. -/
def keyOf (r : Row) : Value × Value :=
  (r.coin_id, r.extracted_at)

/-- The `DO UPDATE SET` clause of `create_upsert_query` (load.py:12-31):
only the six analytical columns are overwritten from the excluded row. -/
def updateRow (old new : Row) : Row :=
  { old with
    current_price := new.current_price
    market_cap := new.market_cap
    total_volume := new.total_volume
    price_change_24h := new.price_change_24h
    market_cap_rank := new.market_cap_rank
    volatility_score := new.volatility_score }

/-- Executing the upsert of `create_upsert_query` against a table state:
on a `(coin_id, extracted_at)` conflict the existing row is updated,
otherwise the new row is inserted. -/
def upsert (store : List Row) (r : Row) : List Row :=
  if ∃ row ∈ store, keyOf row = keyOf r then
    store.map (fun row => if keyOf row = keyOf r then updateRow row r else row)
  else
    store ++ [r]

/-- Table state after loading a whole batch record by record. -/
def load_store (batch : List Row) (store : List Row) : List Row :=
  batch.foldl upsert store

/-- The statistics dict returned by `load_batch` (load.py:93-97). -/
structure LoadResult where
  success_count : Nat
  error_count : Nat
  total : Nat
  deriving DecidableEq, Repr

/-- Function `load_single_record` (load.py:34-42): the per-record write, with the
driver-level outcome of `cursor.execute` supplied by the oracle `execOk`;
any exception is caught and turned into `false`. -/
def load_single_record (execOk : Row → Bool) (r : Row) : Bool :=
  execOk r

/-- Inner loop of `load_batch` over one sub-batch: count successes and
errors, never raising. -/
def loadChunk (execOk : Row → Bool) (counts : Nat × Nat) (chunk : List Row) :
    Nat × Nat :=
  chunk.foldl
    (fun c r =>
      if load_single_record execOk r then (c.1 + 1, c.2) else (c.1, c.2 + 1))
    counts

/-- The `data[i:i+batch_size]` slices of `range(0, len(data), batch_size)`.
(Python raises on step 0; the pipeline only calls it with the default 100.) -/
def chunksOf {α : Type} (bs : Nat) : List α → List (List α)
  | [] => []
  | x :: xs =>
      if _h : bs = 0 then []
      else (x :: xs).take bs :: chunksOf bs ((x :: xs).drop bs)
  termination_by l => l.length
  decreasing_by
    simp only [List.length_drop, List.length_cons]
    omega

/-- Outer loop of `load_batch`: process each sub-batch, then commit; a
commit failure propagates out of the whole call (load.py:80-88). -/
def loadChunks (execOk : Row → Bool) (commit : Except String Unit) :
    List (List Row) → Nat × Nat → Except String (Nat × Nat)
  | [], c => .ok c
  | ch :: rest, c =>
      let c' := loadChunk execOk c ch
      match commit with
      | .error e => .error e
      | .ok _ => loadChunks execOk commit rest c'

/-- Function `load_batch` (load.py:45-98): sub-batches of `batch_size`, per-record
success/error counting, commit after each sub-batch, statistics returned. -/
def load_batch (execOk : Row → Bool) (commit : Except String Unit)
    (data : List Row) (batch_size : Nat) : Except String LoadResult :=
  (loadChunks execOk commit (chunksOf batch_size data) (0, 0)).map
    (fun c => ⟨c.1, c.2, data.length⟩)

/- ------------------------------------------------------------------
   extract.py
   ------------------------------------------------------------------ -/

/-- A raised Python exception: its class name and its message. -/
structure PyExc where
  className : String
  message : String
  deriving DecidableEq, Repr

/-- The decoded body of the HTTP response: a JSON array of records,
some other JSON value, or not JSON at all. -/
inductive Payload where
  | arr (records : List Record)
  | nonArray
  | malformed
  deriving DecidableEq, Repr

/-- The required field set of `validate_response` (extract.py:41). -/
def required_fields : List String :=
  ["id", "symbol", "name", "current_price", "market_cap"]

/-- First required field missing from a record, in source order. -/
def firstMissing (r : Record) : Option String :=
  required_fields.find? (fun f => !(hasKey r f))

/-- Validator `validate_response` (extract.py:36-51): `ValueError` on a non-list, an
empty list, or the first record missing a required field; otherwise `True`. -/
def validate_response : Payload → Except PyExc Bool
  | .nonArray => .error ⟨"ValueError", "Expected a list of coins from API"⟩
  | .malformed => .error ⟨"ValueError", "Expected a list of coins from API"⟩
  | .arr l =>
      if l = [] then .error ⟨"ValueError", "No coins returned from API"⟩
      else
        match l.findSome? firstMissing with
        | some f => .error ⟨"ValueError", "Missing required field: " ++ f⟩
        | none => .ok true

/-- An HTTP response: status code and decoded body. -/
structure HttpResponse where
  status : Nat
  body : Payload
  deriving DecidableEq, Repr

/-- Records carried by a validated payload. -/
def payloadRecords : Payload → List Record
  | .arr l => l
  | _ => []

/-- Extractor `extract_crypto_data` (extract.py:54-104).  `attempts n` is the network
outcome of the `(n+1)`-st HTTP request (an exception from `requests.get`, or
a response); the code performs exactly one request, `attempts 0`.  A 429
status raises a plain `Exception`; other bad statuses raise via
`raise_for_status`; the `except` clauses log and re-raise unchanged. -/
def extract_crypto_data (attempts : Nat → Except PyExc HttpResponse) :
    Except PyExc (List Record) :=
  match attempts 0 with
  | .error e => .error e
  | .ok resp =>
      if resp.status = 429 then
        .error ⟨"Exception", "Rate limited - please try again later"⟩
      else if 400 ≤ resp.status then
        .error ⟨"HTTPError", "bad status " ++ toString resp.status⟩
      else
        match resp.body with
        | .malformed => .error ⟨"JSONDecodeError", "Failed to parse JSON response"⟩
        | p =>
            match validate_response p with
            | .error e => .error e
            | .ok _ => .ok (payloadRecords p)

/- ------------------------------------------------------------------
   A tiny world model for the purity of the transform stage
   ------------------------------------------------------------------ -/

/-- The ambient state a pipeline run can see: the wall clock consulted by
`datetime.now()` and the raw-archive directory written by the extractor. -/
structure World where
  clock : Nat
  rawArchive : List (List Record)
  deriving DecidableEq, Repr

/-- A call to `transform_data` inside a run: it reads the clock once and
returns the world unchanged (the stage performs no writes). -/
def transformRun (w : World) (raw : List Record) :
    Except String (List Record) × World :=
  (transform_data w.clock raw, w)

/- ------------------------------------------------------------------
   Dictionary lemmas
   ------------------------------------------------------------------ -/

@[simp]
theorem dictGet?_dictSet_self (r : Record) (k : String) (v : Value) :
    dictGet? (dictSet r k v) k = some v := by
  induction r with
  | nil => simp [dictSet, dictGet?]
  | cons kv rest ih =>
      obtain ⟨k', v'⟩ := kv
      by_cases h : k' = k <;> simp [dictSet, dictGet?, h, ih]

theorem dictGet?_dictSet_ne (r : Record) {k k2 : String} (v : Value)
    (h : k ≠ k2) : dictGet? (dictSet r k v) k2 = dictGet? r k2 := by
  induction r with
  | nil => simp [dictSet, dictGet?, h]
  | cons kv rest ih =>
      obtain ⟨k', v'⟩ := kv
      by_cases h' : k' = k
      · subst h'
        simp [dictSet, dictGet?, h]
      · simp [dictSet, dictGet?, h', ih]

theorem dictGet?_cleanRecord (r : Record) (k : String) :
    dictGet? (cleanRecord r) k = (dictGet? r k).map (cleanValue k) := by
  induction r with
  | nil => simp [cleanRecord, dictGet?]
  | cons kv rest ih =>
      obtain ⟨k', v'⟩ := kv
      by_cases h : k' = k
      · subst h
        simp [cleanRecord, dictGet?]
      · simpa [cleanRecord, dictGet?, h] using ih

/- ------------------------------------------------------------------
   mapE lemmas
   ------------------------------------------------------------------ -/

theorem mapE_nil {α β : Type} (f : α → Except String β) :
    mapE f [] = .ok [] := rfl

theorem mapE_cons_ok {α β : Type} (f : α → Except String β) (a : α)
    (l : List α) (out : List β) (h : mapE f (a :: l) = .ok out) :
    ∃ b l', f a = .ok b ∧ mapE f l = .ok l' ∧ out = b :: l' := by
  cases hfa : f a with
  | error e => simp [mapE, hfa] at h
  | ok b =>
      cases hl : mapE f l with
      | error e => simp [mapE, hfa, hl] at h
      | ok l' =>
          refine ⟨b, l', rfl, rfl, ?_⟩
          simp [mapE, hfa, hl] at h
          exact h.symm

theorem mapE_ok_length {α β : Type} (f : α → Except String β) :
    ∀ (l : List α) (out : List β), mapE f l = .ok out → out.length = l.length := by
  intro l
  induction l with
  | nil => intro out h; simp [mapE] at h; simp [← h]
  | cons a l ih =>
      intro out h
      obtain ⟨b, l', _, hl, rfl⟩ := mapE_cons_ok f a l out h
      simp [ih l' hl]

theorem mapE_ok_get {α β : Type} (f : α → Except String β) :
    ∀ (l : List α) (out : List β), mapE f l = .ok out →
      ∀ (i : Nat) (h1 : i < l.length) (h2 : i < out.length),
        f (l.get ⟨i, h1⟩) = .ok (out.get ⟨i, h2⟩) := by
  intro l
  induction l with
  | nil => intro out h i h1; exact absurd h1 (by simp)
  | cons a l ih =>
      intro out h i h1 h2
      obtain ⟨b, l', hfa, hl, rfl⟩ := mapE_cons_ok f a l out h
      cases i with
      | zero => simpa using hfa
      | succ j =>
          have hj1 : j < l.length := by simpa using h1
          have hj2 : j < l'.length := by simpa using h2
          simpa using ih l' hl j hj1 hj2

theorem mapE_ok_mem {α β : Type} (f : α → Except String β) :
    ∀ (l : List α) (out : List β), mapE f l = .ok out →
      ∀ b ∈ out, ∃ a ∈ l, f a = .ok b := by
  intro l
  induction l with
  | nil => intro out h b hb; simp [mapE] at h; subst h; simp at hb
  | cons a l ih =>
      intro out h b hb
      obtain ⟨b', l', hfa, hl, rfl⟩ := mapE_cons_ok f a l out h
      rcases List.mem_cons.mp hb with hb | hb
      · exact ⟨a, by simp, by rw [hb]; exact hfa⟩
      · obtain ⟨a', ha', hfa'⟩ := ih l' hl b hb
        exact ⟨a', by simp [ha'], hfa'⟩

theorem mapE_singleton_ok {α β : Type} (f : α → Except String β) (a : α)
    (out : List β) (h : mapE f [a] = .ok out) :
    ∃ b, f a = .ok b ∧ out = [b] := by
  obtain ⟨b, l', hfa, hl, rfl⟩ := mapE_cons_ok f a [] out h
  simp [mapE] at hl
  exact ⟨b, hfa, by simp [← hl]⟩

/- ------------------------------------------------------------------
   Loader lemmas
   ------------------------------------------------------------------ -/

theorem loadChunks_ok (execOk : Row → Bool) :
    ∀ (chs : List (List Row)) (c : Nat × Nat),
      loadChunks execOk (.ok ()) chs c = .ok (chs.foldl (loadChunk execOk) c) := by
  intro chs
  induction chs with
  | nil => intro c; simp [loadChunks]
  | cons ch rest ih => intro c; simp [loadChunks, ih]

theorem foldl_chunksOf_aux {α β : Type} (bs : Nat) (hbs : bs ≠ 0)
    (f : β → α → β) :
    ∀ (n : Nat) (l : List α), l.length ≤ n → ∀ (init : β),
      (chunksOf bs l).foldl (fun c ch => ch.foldl f c) init = l.foldl f init := by
  intro n
  induction n with
  | zero =>
      intro l hl init
      have : l = [] := List.length_eq_zero.mp (Nat.le_zero.mp hl)
      subst this
      simp [chunksOf]
  | succ n ih =>
      intro l hl init
      cases l with
      | nil => simp [chunksOf]
      | cons x xs =>
          rw [chunksOf, dif_neg hbs, List.foldl_cons]
          rw [ih ((x :: xs).drop bs)
                (by simp only [List.length_drop, List.length_cons] at hl ⊢; omega)]
          rw [← List.foldl_append, List.take_append_drop]

theorem foldl_chunksOf {α β : Type} (bs : Nat) (hbs : bs ≠ 0)
    (f : β → α → β) (l : List α) (init : β) :
    (chunksOf bs l).foldl (fun c ch => ch.foldl f c) init = l.foldl f init :=
  foldl_chunksOf_aux bs hbs f l.length l (Nat.le_refl _) init

theorem loadChunk_counts (execOk : Row → Bool) :
    ∀ (l : List Row) (s e : Nat),
      loadChunk execOk (s, e) l =
        (s + l.countP (fun r => execOk r),
         e + l.countP (fun r => !(execOk r))) := by
  intro l
  induction l with
  | nil => intro s e; simp [loadChunk]
  | cons r l ih =>
      intro s e
      simp only [loadChunk, List.foldl_cons, load_single_record] at ih ⊢
      by_cases h : execOk r
      · rw [if_pos h, ih (s + 1) e]
        simp [List.countP_cons, h]
        omega
      · rw [if_neg h, ih s (e + 1)]
        simp [List.countP_cons, h]
        omega

theorem countP_add_countP_not {α : Type} (p : α → Bool) (l : List α) :
    l.countP p + l.countP (fun a => !(p a)) = l.length := by
  induction l with
  | nil => simp
  | cons a l ih =>
      by_cases h : p a <;> simp [List.countP_cons, h] <;> omega

/-- C1.  If exactly `k` records of the batch fail at the per-record write
step (the `cursor.execute` oracle `execOk` returns failure) and the rest
succeed, and the commit itself succeeds, then `load_batch` does not raise,
continues past every failed record, and returns `success_count` equal to
the number of succeeding records, `error_count = k`, and `total` equal to
the length of the input. -/
theorem load_batch_isolates_failures (execOk : Row → Bool) (data : List Row)
    (k : Nat) (hk : data.countP (fun r => !(execOk r)) = k) :
    load_batch execOk (.ok ()) data 100 =
      .ok ⟨data.length - k, k, data.length⟩ := by
  unfold load_batch
  rw [loadChunks_ok]
  have hfold : (chunksOf 100 data).foldl (loadChunk execOk) (0, 0) =
      data.foldl
        (fun c r =>
          if load_single_record execOk r then (c.1 + 1, c.2) else (c.1, c.2 + 1))
        (0, 0) := by
    have hrw : loadChunk execOk = fun (c : Nat × Nat) (ch : List Row) =>
        ch.foldl
          (fun c r =>
            if load_single_record execOk r then (c.1 + 1, c.2) else (c.1, c.2 + 1))
          c := rfl
    rw [hrw]
    exact foldl_chunksOf 100 (by omega) _ data (0, 0)
  rw [hfold]
  have hcounts := loadChunk_counts execOk data 0 0
  simp only [loadChunk] at hcounts
  rw [hcounts]
  have hsum := countP_add_countP_not (fun r => execOk r) data
  rw [hk] at hsum
  simp only [Except.map, Nat.zero_add]
  rw [hk]
  have : data.countP (fun r => execOk r) = data.length - k := by omega
  rw [this]

/-- A sample row that the write oracle of the C1 witness accepts. -/
def rowGood : Row :=
  ⟨.vstr "good", .vstr "G", .vstr "Good", .vnum 1, .vnum 2, .vnum 3,
   .vnum 4, .vnum 5, .vnum 12, .vtime 0⟩

/-- A sample row violating a store-level constraint in the C1 witness. -/
def rowBad : Row :=
  ⟨.vstr "bad", .vstr "B", .vstr "Bad", .vnum 1, .vnum 2, .vnum 3,
   .vnum 4, .vnum 5, .vnum 12, .vtime 0⟩

/-- A batch of 100 records of which exactly 3 fail the per-record write. -/
def demoBatch : List Row :=
  List.replicate 97 rowGood ++ List.replicate 3 rowBad

/-- Write oracle of the C1 witness: constraint violation on `rowBad` only. -/
def demoExec (r : Row) : Bool :=
  decide (r.coin_id ≠ .vstr "bad")

/-- Witness for C1: the spec's 100-record scenario with exactly 3
store-level constraint violations returns `97 / 3 / 100` without raising. -/
theorem load_batch_isolates_failures_witness :
    load_batch demoExec (.ok ()) demoBatch 100 = .ok ⟨97, 3, 100⟩ := by
  have h := load_batch_isolates_failures demoExec demoBatch 3 (by decide)
  simpa [demoBatch] using h

/- ------------------------------------------------------------------
   Upsert / store lemmas
   ------------------------------------------------------------------ -/

theorem updateRow_self (r : Row) : updateRow r r = r := rfl

theorem upsert_not_mem (s : List Row) (r : Row)
    (h : ∀ row ∈ s, keyOf row ≠ keyOf r) : upsert s r = s ++ [r] := by
  unfold upsert
  rw [if_neg (by simpa using h)]

theorem upsert_fixpoint (s : List Row) (r : Row)
    (hex : ∃ row ∈ s, keyOf row = keyOf r)
    (huniq : ∀ row ∈ s, keyOf row = keyOf r → row = r) :
    upsert s r = s := by
  unfold upsert
  rw [if_pos hex]
  have h : ∀ row ∈ s,
      (if keyOf row = keyOf r then updateRow row r else row) = row := by
    intro row hrow
    by_cases hk : keyOf row = keyOf r
    · rw [if_pos hk, huniq row hrow hk, updateRow_self]
    · rw [if_neg hk]
  rw [List.map_congr_left h]
  exact List.map_id' s

theorem load_store_fresh :
    ∀ (b s : List Row),
      List.Pairwise (fun r1 r2 => keyOf r1 ≠ keyOf r2) b →
      (∀ r ∈ b, ∀ row ∈ s, keyOf row ≠ keyOf r) →
      load_store b s = s ++ b := by
  intro b
  induction b with
  | nil => intro s _ _; simp [load_store]
  | cons r b ih =>
      intro s hp hfresh
      have h1 : upsert s r = s ++ [r] :=
        upsert_not_mem s r (fun row hrow => hfresh r (by simp) row hrow)
      have h2 : load_store b (s ++ [r]) = (s ++ [r]) ++ b := by
        refine ih (s ++ [r]) hp.tail ?_
        intro r' hr' row hrow
        rcases List.mem_append.mp hrow with hrow | hrow
        · exact hfresh r' (by simp [hr']) row hrow
        · have : row = r := by simpa using hrow
          subst this
          exact (List.pairwise_cons.mp hp).1 r' hr'
      simp only [load_store, List.foldl_cons] at *
      rw [h1, h2]
      simp

theorem load_store_fix :
    ∀ (b S : List Row),
      (∀ r ∈ b, (∃ row ∈ S, keyOf row = keyOf r) ∧
                (∀ row ∈ S, keyOf row = keyOf r → row = r)) →
      load_store b S = S := by
  intro b
  induction b with
  | nil => intro S _; simp [load_store]
  | cons r b ih =>
      intro S h
      have h1 : upsert S r = S :=
        upsert_fixpoint S r (h r (by simp)).1 (h r (by simp)).2
      simp only [load_store, List.foldl_cons] at *
      rw [h1]
      exact ih S (fun r' hr' => h r' (by simp [hr']))

/-- C2.  Loading the same transformed batch twice with one shared
`extracted_at` value is idempotent: the store after two loads is identical
to the store after one, and for a batch of N records with pairwise distinct
`coin_id`s loaded into a store with no rows at that timestamp, the store
holds exactly N rows at that timestamp, not 2N. -/
theorem load_store_twice_idempotent (batch store : List Row) (t : Value)
    (hts : ∀ r ∈ batch, r.extracted_at = t)
    (hids : (batch.map Row.coin_id).Nodup)
    (hfresh : ∀ row ∈ store, row.extracted_at ≠ t) :
    load_store batch (load_store batch store) = load_store batch store ∧
    (load_store batch store).countP
        (fun row => decide (row.extracted_at = t)) = batch.length := by
  have hinj : ∀ r1 ∈ batch, ∀ r2 ∈ batch, keyOf r1 = keyOf r2 → r1 = r2 := by
    intro r1 h1 r2 h2 hk
    exact List.inj_on_of_nodup_map hids h1 h2 (congrArg Prod.fst hk)
  have hpair : List.Pairwise (fun r1 r2 => keyOf r1 ≠ keyOf r2) batch := by
    have hp : List.Pairwise (fun r1 r2 => r1.coin_id ≠ r2.coin_id) batch :=
      List.pairwise_map.mp hids
    exact hp.imp (fun h hk => h (congrArg Prod.fst hk))
  have hfreshKeys : ∀ r ∈ batch, ∀ row ∈ store, keyOf row ≠ keyOf r := by
    intro r hr row hrow hk
    exact hfresh row hrow (by
      have := congrArg Prod.snd hk
      simp only [keyOf] at this
      rw [this, hts r hr])
  have h1 : load_store batch store = store ++ batch :=
    load_store_fresh batch store hpair hfreshKeys
  constructor
  · rw [h1]
    apply load_store_fix
    intro r hr
    constructor
    · exact ⟨r, by simp [hr], rfl⟩
    · intro row hrow hk
      rcases List.mem_append.mp hrow with hrow | hrow
      · exact absurd hk (hfreshKeys r hr row hrow)
      · exact hinj row hrow r hr hk
  · rw [h1, List.countP_append]
    have hz : store.countP (fun row => decide (row.extracted_at = t)) = 0 := by
      rw [List.countP_eq_zero]
      intro row hrow
      simpa using hfresh row hrow
    have hall : batch.countP (fun row => decide (row.extracted_at = t)) =
        batch.length := by
      rw [List.countP_eq_length]
      intro r hr
      simpa using hts r hr
    rw [hz, hall]
    omega

/-- First row of the C2 witness batch. -/
def wRow1 : Row :=
  ⟨.vstr "bitcoin", .vstr "BTC", .vstr "Bitcoin", .vnum 50000,
   .vnum 1000000000000, .vnum 50000000000, .vnum 1500, .vnum 1,
   .vnum 75000000000000, .vtime 1⟩

/-- Second row of the C2 witness batch, distinct `coin_id`, same timestamp. -/
def wRow2 : Row :=
  ⟨.vstr "ethereum", .vstr "ETH", .vstr "Ethereum", .vnum 3000,
   .vnum 400000000000, .vnum 20000000000, .vnum (-100), .vnum 2,
   .vnum 2000000000000, .vtime 1⟩

/-- Witness for C2: a concrete 2-record batch loaded twice into an empty
store leaves the store as after one load, with exactly 2 rows at the shared
timestamp. -/
theorem load_store_twice_idempotent_witness :
    load_store [wRow1, wRow2] (load_store [wRow1, wRow2] []) =
        load_store [wRow1, wRow2] [] ∧
    (load_store [wRow1, wRow2] []).countP
        (fun row => decide (row.extracted_at = .vtime 1)) = 2 := by
  have h := load_store_twice_idempotent [wRow1, wRow2] [] (.vtime 1)
    (by decide) (by decide) (by simp)
  simpa using h

/- ------------------------------------------------------------------
   Per-field lemmas about the transform stages
   ------------------------------------------------------------------ -/

theorem convertField_ok_shape {r : Record} {k : String}
    {conv : Value → Option Value} {r' : Record}
    (h : convertField r k conv = .ok r') :
    (dictGet? r k = none ∧ r' = r) ∨
    (∃ v v', dictGet? r k = some v ∧ conv v = some v' ∧ r' = dictSet r k v') := by
  unfold convertField at h
  cases hg : dictGet? r k with
  | none =>
      rw [hg] at h
      have h' : (Except.ok r : Except String Record) = .ok r' := h
      exact .inl ⟨rfl, by injection h' with h'; exact h'.symm⟩
  | some v =>
      rw [hg] at h
      have h' : (match conv v with
          | some v' => (Except.ok (dictSet r k v') : Except String Record)
          | none => .error ("could not convert field " ++ k)) = .ok r' := h
      cases hc : conv v with
      | none => rw [hc] at h'; cases h'
      | some v' =>
          rw [hc] at h'
          exact .inr ⟨v, v', rfl, hc, by injection h' with h'; exact h'.symm⟩

theorem convertField_ok_ne {r : Record} {k : String}
    {conv : Value → Option Value} {r' : Record}
    (h : convertField r k conv = .ok r') {k2 : String} (hne : k ≠ k2) :
    dictGet? r' k2 = dictGet? r k2 := by
  rcases convertField_ok_shape h with ⟨_, rfl⟩ | ⟨v, v', _, _, rfl⟩
  · rfl
  · exact dictGet?_dictSet_ne r v' hne

theorem convertField_preserves_none {r : Record} {k0 : String}
    {conv : Value → Option Value} {r' : Record}
    (h : convertField r k0 conv = .ok r') {k : String}
    (hk : dictGet? r k = none) : dictGet? r' k = none := by
  by_cases hkk : k0 = k
  · subst hkk
    rcases convertField_ok_shape h with ⟨_, rfl⟩ | ⟨v, v', hv, _, rfl⟩
    · exact hk
    · rw [hv] at hk; cases hk
  · rw [convertField_ok_ne h hkk]; exact hk

theorem convertRecord_ok_steps {r c2 : Record} (h : convertRecord r = .ok c2) :
    ∃ r1 r2 r3 r4,
      convertField r "current_price" floatOrZero = .ok r1 ∧
      convertField r1 "market_cap" intOrZero = .ok r2 ∧
      convertField r2 "total_volume" intOrZero = .ok r3 ∧
      convertField r3 "price_change_24h" floatOrZero = .ok r4 ∧
      convertField r4 "market_cap_rank" intOr9999 = .ok c2 := by
  unfold convertRecord at h
  cases h1 : convertField r "current_price" floatOrZero with
  | error e => rw [h1] at h; cases h
  | ok r1 =>
      rw [h1] at h
      have ha : (match convertField r1 "market_cap" intOrZero with
          | .error e => (Except.error e : Except String Record)
          | .ok r2 =>
              match convertField r2 "total_volume" intOrZero with
              | .error e => .error e
              | .ok r3 =>
                  match convertField r3 "price_change_24h" floatOrZero with
                  | .error e => .error e
                  | .ok r4 => convertField r4 "market_cap_rank" intOr9999) = .ok c2 := h
      cases h2 : convertField r1 "market_cap" intOrZero with
      | error e => rw [h2] at ha; cases ha
      | ok r2 =>
          rw [h2] at ha
          have hb : (match convertField r2 "total_volume" intOrZero with
              | .error e => (Except.error e : Except String Record)
              | .ok r3 =>
                  match convertField r3 "price_change_24h" floatOrZero with
                  | .error e => .error e
                  | .ok r4 => convertField r4 "market_cap_rank" intOr9999) = .ok c2 := ha
          cases h3 : convertField r2 "total_volume" intOrZero with
          | error e => rw [h3] at hb; cases hb
          | ok r3 =>
              rw [h3] at hb
              have hc : (match convertField r3 "price_change_24h" floatOrZero with
                  | .error e => (Except.error e : Except String Record)
                  | .ok r4 => convertField r4 "market_cap_rank" intOr9999) = .ok c2 := hb
              cases h4 : convertField r3 "price_change_24h" floatOrZero with
              | error e => rw [h4] at hc; cases hc
              | ok r4 =>
                  rw [h4] at hc
                  exact ⟨r1, r2, r3, r4, rfl, h2, h3, h4, hc⟩

theorem convertRecord_preserves_none {r c2 : Record}
    (h : convertRecord r = .ok c2) {k : String}
    (hk : dictGet? r k = none) : dictGet? c2 k = none := by
  obtain ⟨r1, r2, r3, r4, h1, h2, h3, h4, h5⟩ := convertRecord_ok_steps h
  exact convertField_preserves_none h5
    (convertField_preserves_none h4
      (convertField_preserves_none h3
        (convertField_preserves_none h2
          (convertField_preserves_none h1 hk))))

theorem floatOrZero_num {v v' : Value} (h : floatOrZero v = some v') :
    ∃ q : ℚ, v' = .vnum q := by
  unfold floatOrZero at h
  cases hf : pyFloat (pyOr v (.vnum 0)) with
  | none => rw [hf] at h; cases h
  | some q => rw [hf] at h; exact ⟨q, by injection h with h; exact h.symm⟩

theorem intOrZero_num {v v' : Value} (h : intOrZero v = some v') :
    ∃ n : ℤ, v' = .vnum (n : ℚ) := by
  unfold intOrZero at h
  cases hf : pyToInt (pyOr v (.vnum 0)) with
  | none => rw [hf] at h; cases h
  | some n => rw [hf] at h; exact ⟨n, by injection h with h; exact h.symm⟩

theorem intOr9999_num {v v' : Value} (h : intOr9999 v = some v') :
    ∃ n : ℤ, v' = .vnum (n : ℚ) := by
  unfold intOr9999 at h
  cases hf : pyToInt (pyOr v (.vnum 9999)) with
  | none => rw [hf] at h; cases h
  | some n => rw [hf] at h; exact ⟨n, by injection h with h; exact h.symm⟩

theorem convertRecord_num_fields {r c2 : Record} (h : convertRecord r = .ok c2) :
    (dictGet? c2 "price_change_24h" = none ∨
      ∃ q : ℚ, dictGet? c2 "price_change_24h" = some (.vnum q)) ∧
    (dictGet? c2 "total_volume" = none ∨
      ∃ n : ℤ, dictGet? c2 "total_volume" = some (.vnum (n : ℚ))) := by
  obtain ⟨r1, r2, r3, r4, h1, h2, h3, h4, h5⟩ := convertRecord_ok_steps h
  constructor
  · rw [convertField_ok_ne h5 (by decide)]
    rcases convertField_ok_shape h4 with ⟨hn, rfl⟩ | ⟨v, v', _, hv', rfl⟩
    · exact .inl hn
    · obtain ⟨q, rfl⟩ := floatOrZero_num hv'
      exact .inr ⟨q, by rw [dictGet?_dictSet_self]⟩
  · rw [convertField_ok_ne h5 (by decide), convertField_ok_ne h4 (by decide)]
    rcases convertField_ok_shape h3 with ⟨hn, rfl⟩ | ⟨v, v', _, hv', rfl⟩
    · exact .inl hn
    · obtain ⟨n, rfl⟩ := intOrZero_num hv'
      exact .inr ⟨n, by rw [dictGet?_dictSet_self]⟩

theorem volRecord_ok {c2 c3 : Record} (h : volRecord c2 = .ok c3) :
    ∃ (p : ℚ) (vol : ℤ),
      pyFloat (pyOr (dictGetD c2 "price_change_24h" (.vnum 0)) (.vnum 0)) = some p ∧
      pyToInt (pyOr (dictGetD c2 "total_volume" (.vnum 0)) (.vnum 0)) = some vol ∧
      c3 = dictSet c2 "volatility_score" (.vnum (|p| * (vol : ℚ))) := by
  unfold volRecord at h
  cases hp : pyFloat (pyOr (dictGetD c2 "price_change_24h" (.vnum 0)) (.vnum 0)) with
  | none => rw [hp] at h; cases h
  | some p =>
      cases hv : pyToInt (pyOr (dictGetD c2 "total_volume" (.vnum 0)) (.vnum 0)) with
      | none => rw [hp, hv] at h; cases h
      | some vol =>
          rw [hp, hv] at h
          exact ⟨p, vol, rfl, rfl, by injection h with h; exact h.symm⟩

/-- The record literal built by `select_required_fields`. -/
def projRecord (cid sym nm cp mc tv pc mr vs ea : Value) : Record :=
  [("coin_id", cid), ("symbol", sym), ("name", nm), ("current_price", cp),
   ("market_cap", mc), ("total_volume", tv), ("price_change_24h", pc),
   ("market_cap_rank", mr), ("volatility_score", vs), ("extracted_at", ea)]

theorem selectRecord_ok_shape {r s : Record} (h : selectRecord r = .ok s) :
    ∃ symVal, pyUpper (dictGetD r "symbol" (.vstr "")) = some symVal ∧
      s = projRecord (dictGetD r "id" (.vstr "")) symVal
            (dictGetD r "name" (.vstr "")) (dictGetD r "current_price" (.vnum 0))
            (dictGetD r "market_cap" (.vnum 0)) (dictGetD r "total_volume" (.vnum 0))
            (dictGetD r "price_change_24h" (.vnum 0))
            (dictGetD r "market_cap_rank" (.vnum 9999))
            (dictGetD r "volatility_score" (.vnum 0))
            (dictGetD r "extracted_at" .vnull) := by
  unfold selectRecord at h
  cases hu : pyUpper (dictGetD r "symbol" (.vstr "")) with
  | none => rw [hu] at h; cases h
  | some symVal =>
      rw [hu] at h
      exact ⟨symVal, rfl, by injection h with h; exact h.symm⟩

theorem projRecord_get (cid sym nm cp mc tv pc mr vs ea : Value) :
    dictGet? (projRecord cid sym nm cp mc tv pc mr vs ea) "coin_id" = some cid ∧
    dictGet? (projRecord cid sym nm cp mc tv pc mr vs ea) "symbol" = some sym ∧
    dictGet? (projRecord cid sym nm cp mc tv pc mr vs ea) "name" = some nm ∧
    dictGet? (projRecord cid sym nm cp mc tv pc mr vs ea) "current_price" = some cp ∧
    dictGet? (projRecord cid sym nm cp mc tv pc mr vs ea) "market_cap" = some mc ∧
    dictGet? (projRecord cid sym nm cp mc tv pc mr vs ea) "total_volume" = some tv ∧
    dictGet? (projRecord cid sym nm cp mc tv pc mr vs ea) "price_change_24h" = some pc ∧
    dictGet? (projRecord cid sym nm cp mc tv pc mr vs ea) "market_cap_rank" = some mr ∧
    dictGet? (projRecord cid sym nm cp mc tv pc mr vs ea) "volatility_score" = some vs ∧
    dictGet? (projRecord cid sym nm cp mc tv pc mr vs ea) "extracted_at" = some ea := by
  simp [projRecord, dictGet?]

theorem transform_data_ok {ts : Nat} {raw out : List Record}
    (h : transform_data ts raw = .ok out) :
    ∃ d2 d3, mapE convertRecord (clean_null_values raw) = .ok d2 ∧
      mapE volRecord d2 = .ok d3 ∧
      mapE selectRecord (d3.map (addTimestamp ts)) = .ok out := by
  unfold transform_data at h
  cases h2 : mapE convertRecord (clean_null_values raw) with
  | error e => rw [h2] at h; cases h
  | ok d2 =>
      rw [h2] at h
      have ha : (match mapE volRecord d2 with
          | .error e => (Except.error e : Except String (List Record))
          | .ok d3 => mapE selectRecord (d3.map (addTimestamp ts))) = .ok out := h
      cases h3 : mapE volRecord d2 with
      | error e => rw [h3] at ha; cases ha
      | ok d3 =>
          rw [h3] at ha
          exact ⟨d2, d3, rfl, h3, ha⟩

theorem dictGet?_addTimestamp_self (ts : Nat) (r : Record) :
    dictGet? (addTimestamp ts r) "extracted_at" = some (.vtime ts) :=
  dictGet?_dictSet_self r "extracted_at" (.vtime ts)

theorem dictGet?_addTimestamp_ne (ts : Nat) (r : Record) {k : String}
    (h : k ≠ "extracted_at") : dictGet? (addTimestamp ts r) k = dictGet? r k :=
  dictGet?_dictSet_ne r (.vtime ts) (fun he => h he.symm)

/- ------------------------------------------------------------------
   Transform theorems
   ------------------------------------------------------------------ -/

/-- C10.  Whenever `transform_data` returns, it yields exactly one output
record per input record and in the same order: the output has the length of
the input, and the record at position `i` of the output is the full
per-record pipeline applied to the record at position `i` of the input. -/
theorem transform_data_elementwise (ts : Nat) (raw out : List Record)
    (h : transform_data ts raw = .ok out) :
    out.length = raw.length ∧
    ∀ (i : Nat) (h1 : i < raw.length) (h2 : i < out.length),
      perRecord ts (raw.get ⟨i, h1⟩) = .ok (out.get ⟨i, h2⟩) := by
  obtain ⟨d2, d3, hd2, hd3, hout⟩ := transform_data_ok h
  have l2 : d2.length = raw.length := by
    have := mapE_ok_length _ _ _ hd2
    simpa [clean_null_values] using this
  have l3 : d3.length = d2.length := mapE_ok_length _ _ _ hd3
  have lout : out.length = d3.length := by
    have := mapE_ok_length _ _ _ hout
    simpa using this
  refine ⟨by omega, ?_⟩
  intro i h1 h2
  have hi2 : i < d2.length := by omega
  have hi3 : i < d3.length := by omega
  have hiC : i < (clean_null_values raw).length := by
    simpa [clean_null_values] using h1
  have hiM : i < (d3.map (addTimestamp ts)).length := by simpa using hi3
  have e1 := mapE_ok_get _ _ _ hd2 i hiC hi2
  have e2 := mapE_ok_get _ _ _ hd3 i hi2 hi3
  have e3 := mapE_ok_get _ _ _ hout i hiM h2
  have hc1 : (clean_null_values raw).get ⟨i, hiC⟩ =
      cleanRecord (raw.get ⟨i, h1⟩) := by
    simp [clean_null_values]
  have hc3 : (d3.map (addTimestamp ts)).get ⟨i, hiM⟩ =
      addTimestamp ts (d3.get ⟨i, hi3⟩) := by
    simp
  rw [hc1] at e1
  rw [hc3] at e3
  simp only [perRecord, e1, e2, e3]

/-- Witness for C10: the sample record scenario, one record in, one out. -/
theorem transform_data_elementwise_witness :
    [bitcoinOut 3].length = [bitcoinRaw].length ∧
    perRecord 3 bitcoinRaw = .ok (bitcoinOut 3) := by
  have h := transform_data_elementwise 3 [bitcoinRaw] [bitcoinOut 3] (by decide)
  refine ⟨h.1, ?_⟩
  have h2 := h.2 0 (by decide) (by decide)
  simpa using h2

/-- C5.  All records produced by one `transform_data` call carry the same
`extracted_at` value: the single per-call timestamp. -/
theorem transform_uniform_timestamp (ts : Nat) (raw out : List Record)
    (h : transform_data ts raw = .ok out) :
    (∀ r ∈ out, dictGet? r "extracted_at" = some (.vtime ts)) ∧
    ∀ r1 ∈ out, ∀ r2 ∈ out,
      dictGet? r1 "extracted_at" = dictGet? r2 "extracted_at" := by
  obtain ⟨d2, d3, hd2, hd3, hout⟩ := transform_data_ok h
  have hmain : ∀ r ∈ out, dictGet? r "extracted_at" = some (.vtime ts) := by
    intro r hr
    obtain ⟨a, ha, hsel⟩ := mapE_ok_mem _ _ _ hout r hr
    obtain ⟨c3, hc3, rfl⟩ := List.mem_map.mp ha
    obtain ⟨symVal, hsym, rfl⟩ := selectRecord_ok_shape hsel
    rw [(projRecord_get _ _ _ _ _ _ _ _ _ _).2.2.2.2.2.2.2.2.2]
    unfold dictGetD
    rw [dictGet?_addTimestamp_self]
    rfl
  exact ⟨hmain, fun r1 h1 r2 h2 => by rw [hmain r1 h1, hmain r2 h2]⟩

/-- Witness for C5: the sample run stamps its records with the call's
timestamp. -/
theorem transform_uniform_timestamp_witness :
    dictGet? (bitcoinOut 5) "extracted_at" = some (.vtime 5) := by
  have h := (transform_uniform_timestamp 5 [bitcoinRaw] [bitcoinOut 5]
    (by decide)).1
  exact h (bitcoinOut 5) (by simp)

/-- C3 (amended).  Every record produced by `transform_data` satisfies
`volatility_score = abs(price_change_24h) * total_volume` over its own
normalized fields; the score is non-negative whenever the normalized
`total_volume` is non-negative (the code does not clamp negative volumes),
and `price_change_24h = 0` forces a zero score regardless of volume. -/
theorem volatility_score_invariant (ts : Nat) (raw out : List Record)
    (h : transform_data ts raw = .ok out) :
    ∀ r ∈ out, ∃ p v : ℚ,
      dictGet? r "price_change_24h" = some (.vnum p) ∧
      dictGet? r "total_volume" = some (.vnum v) ∧
      dictGet? r "volatility_score" = some (.vnum (|p| * v)) ∧
      (0 ≤ v → 0 ≤ |p| * v) ∧
      (p = 0 → |p| * v = 0) := by
  obtain ⟨d2, d3, hd2, hd3, hout⟩ := transform_data_ok h
  intro r hr
  obtain ⟨a, ha, hsel⟩ := mapE_ok_mem _ _ _ hout r hr
  obtain ⟨c3, hc3mem, rfl⟩ := List.mem_map.mp ha
  obtain ⟨c2, hc2mem, hvol⟩ := mapE_ok_mem _ _ _ hd3 c3 hc3mem
  obtain ⟨c1, hc1mem, hconv⟩ := mapE_ok_mem _ _ _ hd2 c2 hc2mem
  obtain ⟨p0, vol, hp0, hvol0, rfl⟩ := volRecord_ok hvol
  obtain ⟨symVal, hsym, rfl⟩ := selectRecord_ok_shape hsel
  obtain ⟨hpc, htv⟩ := convertRecord_num_fields hconv
  have hprice : dictGetD
      (addTimestamp ts (dictSet c2 "volatility_score" (.vnum (|p0| * (vol : ℚ)))))
      "price_change_24h" (.vnum 0) = dictGetD c2 "price_change_24h" (.vnum 0) := by
    unfold dictGetD
    rw [dictGet?_addTimestamp_ne _ _ (by decide),
        dictGet?_dictSet_ne _ _ (by decide)]
  have hvolume : dictGetD
      (addTimestamp ts (dictSet c2 "volatility_score" (.vnum (|p0| * (vol : ℚ)))))
      "total_volume" (.vnum 0) = dictGetD c2 "total_volume" (.vnum 0) := by
    unfold dictGetD
    rw [dictGet?_addTimestamp_ne _ _ (by decide),
        dictGet?_dictSet_ne _ _ (by decide)]
  have hscore : dictGetD
      (addTimestamp ts (dictSet c2 "volatility_score" (.vnum (|p0| * (vol : ℚ)))))
      "volatility_score" (.vnum 0) = .vnum (|p0| * (vol : ℚ)) := by
    unfold dictGetD
    rw [dictGet?_addTimestamp_ne _ _ (by decide), dictGet?_dictSet_self]
    rfl
  have hw : ∃ pq : ℚ, dictGetD c2 "price_change_24h" (.vnum 0) = .vnum pq := by
    rcases hpc with hnone | ⟨q, hq⟩
    · exact ⟨0, by unfold dictGetD; rw [hnone]; rfl⟩
    · exact ⟨q, by unfold dictGetD; rw [hq]; rfl⟩
  obtain ⟨pq, hwp⟩ := hw
  have habs : |p0| = |pq| := by
    rw [hwp] at hp0
    by_cases hz : pq = 0
    · subst hz
      simp [pyOr, truthy, pyFloat] at hp0
      rw [← hp0]
    · simp [pyOr, truthy, hz, pyFloat] at hp0
      rw [← hp0]
  have hu : ∃ vq : ℚ, dictGetD c2 "total_volume" (.vnum 0) = .vnum vq ∧
      (vol : ℚ) = vq := by
    rcases htv with hnone | ⟨n, hn⟩
    · have he : dictGetD c2 "total_volume" (.vnum 0) = .vnum 0 := by
        unfold dictGetD; rw [hnone]; rfl
      refine ⟨0, he, ?_⟩
      rw [he] at hvol0
      simp [pyOr, truthy, pyToInt] at hvol0
      simp [← hvol0]
    · have he : dictGetD c2 "total_volume" (.vnum 0) = .vnum (n : ℚ) := by
        unfold dictGetD; rw [hn]; rfl
      refine ⟨(n : ℚ), he, ?_⟩
      rw [he] at hvol0
      by_cases hz : (n : ℚ) = 0
      · rw [hz] at hvol0 ⊢
        simp [pyOr, truthy, pyToInt] at hvol0
        simp [← hvol0]
      · simp [pyOr, truthy, hz, pyToInt] at hvol0
        simp [← hvol0]
  obtain ⟨vq, huv, hvolq⟩ := hu
  refine ⟨pq, vq, ?_, ?_, ?_, ?_, ?_⟩
  · rw [(projRecord_get _ _ _ _ _ _ _ _ _ _).2.2.2.2.2.2.1, hprice, hwp]
  · rw [(projRecord_get _ _ _ _ _ _ _ _ _ _).2.2.2.2.2.1, hvolume, huv]
  · rw [(projRecord_get _ _ _ _ _ _ _ _ _ _).2.2.2.2.2.2.2.2.1, hscore,
        habs, hvolq]
  · intro hv
    exact mul_nonneg (abs_nonneg _) hv
  · intro hp
    rw [hp]
    simp

/-- Witness for C3: the sample output record satisfies the volatility
invariant. -/
theorem volatility_score_invariant_witness :
    ∃ p v : ℚ,
      dictGet? (bitcoinOut 7) "price_change_24h" = some (.vnum p) ∧
      dictGet? (bitcoinOut 7) "total_volume" = some (.vnum v) ∧
      dictGet? (bitcoinOut 7) "volatility_score" = some (.vnum (|p| * v)) ∧
      (0 ≤ v → 0 ≤ |p| * v) ∧
      (p = 0 → |p| * v = 0) :=
  volatility_score_invariant 7 [bitcoinRaw] [bitcoinOut 7] (by decide)
    (bitcoinOut 7) (by simp)

/-- A raw record with a negative upstream `total_volume`. -/
def negVolRaw : Record :=
  [("id", .vstr "neg"), ("symbol", .vstr "ng"), ("name", .vstr "Neg"),
   ("price_change_24h", .vnum 1), ("total_volume", .vnum (-2))]

/-- What `transform_data` makes of `negVolRaw`. -/
def negVolOut : Record :=
  [("coin_id", .vstr "neg"), ("symbol", .vstr "NG"), ("name", .vstr "Neg"),
   ("current_price", .vnum 0), ("market_cap", .vnum 0),
   ("total_volume", .vnum (-2)), ("price_change_24h", .vnum 1),
   ("market_cap_rank", .vnum 9999), ("volatility_score", .vnum (-2)),
   ("extracted_at", .vtime 0)]

/-- Counterexample for C3 as frozen: the claim's unconditional
`volatility_score >= 0` fails, because nothing clamps a negative upstream
`total_volume`; here the produced score is `-2 < 0`. -/
theorem volatility_score_nonneg_cex :
    transform_data 0 [negVolRaw] = .ok [negVolOut] ∧
    dictGet? negVolOut "volatility_score" = some (.vnum (-2)) ∧
    ¬(0 ≤ (-2 : ℚ)) := by
  refine ⟨by decide, by decide, by decide⟩

/-- C4 (amended).  Null normalization: a present-null `current_price` or
`price_change_24h` becomes `0.0`, a present-null `market_cap` or
`total_volume` becomes `0`, a present-null `market_cap_rank` becomes the
sentinel `9999`; every field outside the six defaulted ones (the five above
plus `price_change_percentage_24h`, which the cleaning stage also defaults
to `0.0`) passes through the cleaning stage unchanged, null included; and a
record reaching the end of the pipeline with one of the five fields absent
ends up with the same default in its output record. -/
theorem null_defaulting (r : Record) :
    (dictGet? r "current_price" = some .vnull →
        dictGet? (cleanRecord r) "current_price" = some (.vnum 0)) ∧
    (dictGet? r "price_change_24h" = some .vnull →
        dictGet? (cleanRecord r) "price_change_24h" = some (.vnum 0)) ∧
    (dictGet? r "market_cap" = some .vnull →
        dictGet? (cleanRecord r) "market_cap" = some (.vnum 0)) ∧
    (dictGet? r "total_volume" = some .vnull →
        dictGet? (cleanRecord r) "total_volume" = some (.vnum 0)) ∧
    (dictGet? r "market_cap_rank" = some .vnull →
        dictGet? (cleanRecord r) "market_cap_rank" = some (.vnum 9999)) ∧
    (∀ k : String, k ≠ "current_price" → k ≠ "price_change_24h" →
        k ≠ "price_change_percentage_24h" → k ≠ "market_cap" →
        k ≠ "total_volume" → k ≠ "market_cap_rank" →
        dictGet? (cleanRecord r) k = dictGet? r k) ∧
    (∀ (k : String) (v : Value), v ≠ .vnull → dictGet? r k = some v →
        dictGet? (cleanRecord r) k = some v) ∧
    (∀ (ts : Nat) (out : Record), transform_data ts [r] = .ok [out] →
        (dictGet? r "current_price" = none →
            dictGet? out "current_price" = some (.vnum 0)) ∧
        (dictGet? r "price_change_24h" = none →
            dictGet? out "price_change_24h" = some (.vnum 0)) ∧
        (dictGet? r "market_cap" = none →
            dictGet? out "market_cap" = some (.vnum 0)) ∧
        (dictGet? r "total_volume" = none →
            dictGet? out "total_volume" = some (.vnum 0)) ∧
        (dictGet? r "market_cap_rank" = none →
            dictGet? out "market_cap_rank" = some (.vnum 9999))) := by
  refine ⟨?_, ?_, ?_, ?_, ?_, ?_, ?_, ?_⟩
  · intro hv; rw [dictGet?_cleanRecord, hv]; decide
  · intro hv; rw [dictGet?_cleanRecord, hv]; decide
  · intro hv; rw [dictGet?_cleanRecord, hv]; decide
  · intro hv; rw [dictGet?_cleanRecord, hv]; decide
  · intro hv; rw [dictGet?_cleanRecord, hv]; decide
  · intro k h1 h2 h3 h4 h5 h6
    rw [dictGet?_cleanRecord]
    cases hg : dictGet? r k with
    | none => simp
    | some v =>
        have hcv : cleanValue k v = v := by
          unfold cleanValue
          by_cases hv : v = .vnull
          · subst hv; simp [h1, h2, h3, h4, h5, h6]
          · simp [hv]
        simp [hcv]
  · intro k v hv hg
    rw [dictGet?_cleanRecord, hg]
    simp [cleanValue, hv]
  · intro ts out htr
    obtain ⟨d2, d3, hd2, hd3, hout⟩ := transform_data_ok htr
    rw [show clean_null_values [r] = [cleanRecord r] from rfl] at hd2
    obtain ⟨c2, hc2, rfl⟩ := mapE_singleton_ok _ _ _ hd2
    obtain ⟨c3, hvol, rfl⟩ := mapE_singleton_ok _ _ _ hd3
    rw [show ([c3].map (addTimestamp ts)) = [addTimestamp ts c3] from rfl] at hout
    obtain ⟨outR, hsel, houtEq⟩ := mapE_singleton_ok _ _ _ hout
    have houtR : outR = out := by injection houtEq with h1 _; exact h1.symm
    subst houtR
    obtain ⟨p0, vol, _, _, rfl⟩ := volRecord_ok hvol
    obtain ⟨symVal, hsym, rfl⟩ := selectRecord_ok_shape hsel
    have chain : ∀ f : String, f ≠ "volatility_score" → f ≠ "extracted_at" →
        dictGet? r f = none →
        dictGet?
          (addTimestamp ts (dictSet c2 "volatility_score"
            (.vnum (|p0| * (vol : ℚ))))) f = none := by
      intro f hf1 hf2 hf
      have hclean : dictGet? (cleanRecord r) f = none := by
        rw [dictGet?_cleanRecord, hf]; rfl
      have hc2n : dictGet? c2 f = none :=
        convertRecord_preserves_none hc2 hclean
      rw [dictGet?_addTimestamp_ne _ _ hf2,
          dictGet?_dictSet_ne _ _ (fun he => hf1 he.symm)]
      exact hc2n
    refine ⟨?_, ?_, ?_, ?_, ?_⟩
    · intro hf
      rw [(projRecord_get _ _ _ _ _ _ _ _ _ _).2.2.2.1]
      unfold dictGetD
      rw [chain "current_price" (by decide) (by decide) hf]
      rfl
    · intro hf
      rw [(projRecord_get _ _ _ _ _ _ _ _ _ _).2.2.2.2.2.2.1]
      unfold dictGetD
      rw [chain "price_change_24h" (by decide) (by decide) hf]
      rfl
    · intro hf
      rw [(projRecord_get _ _ _ _ _ _ _ _ _ _).2.2.2.2.1]
      unfold dictGetD
      rw [chain "market_cap" (by decide) (by decide) hf]
      rfl
    · intro hf
      rw [(projRecord_get _ _ _ _ _ _ _ _ _ _).2.2.2.2.2.1]
      unfold dictGetD
      rw [chain "total_volume" (by decide) (by decide) hf]
      rfl
    · intro hf
      rw [(projRecord_get _ _ _ _ _ _ _ _ _ _).2.2.2.2.2.2.2.1]
      unfold dictGetD
      rw [chain "market_cap_rank" (by decide) (by decide) hf]
      rfl

/-- Counterexample for C4 as frozen: `price_change_percentage_24h` is not
among the five fields the claim lists, yet a present-null value of it does
not pass through unchanged — the cleaning stage rewrites it to `0.0`. -/
theorem null_defaulting_cex :
    dictGet? (cleanRecord [("price_change_percentage_24h", Value.vnull)])
        "price_change_percentage_24h" = some (.vnum 0) ∧
    some (Value.vnum 0) ≠ some Value.vnull := by
  exact ⟨by decide, by decide⟩

/-- A record with a present-null price, used by the C4 witness. -/
def nullPriceRaw : Record :=
  [("id", .vstr "x"), ("symbol", .vstr "xx"), ("name", .vstr "X"),
   ("current_price", Value.vnull)]

/-- Witness for C4: on a concrete record, the null price is defaulted and
the name passes through unchanged. -/
theorem null_defaulting_witness :
    dictGet? (cleanRecord nullPriceRaw) "current_price" = some (.vnum 0) ∧
    dictGet? (cleanRecord nullPriceRaw) "name" = some (.vstr "X") :=
  ⟨(null_defaulting nullPriceRaw).1 (by decide),
   (null_defaulting nullPriceRaw).2.2.2.2.2.2.1 "name" (.vstr "X")
     (by decide) (by decide)⟩

/-- C9.  The end-to-end scenario: the sample raw bitcoin record transforms
into exactly the expected record — `id` renamed to `coin_id`, symbol
upper-cased, `volatility_score = |1500| * 50000000000`, the run timestamp
stamped, and only persistence-schema fields surviving the projection. -/
theorem transform_bitcoin_scenario (ts : Nat) :
    transform_data ts [bitcoinRaw] = .ok [bitcoinOut ts] := rfl

/-- Witness for C9 at a concrete timestamp. -/
theorem transform_bitcoin_scenario_witness :
    transform_data 7 [bitcoinRaw] = .ok [bitcoinOut 7] :=
  transform_bitcoin_scenario 7

/-- C8.  The transform stage is pure and deterministic given its single
timestamp input: two runs in worlds agreeing on the clock produce the same
output, and neither run changes its world. -/
theorem transform_deterministic (w1 w2 : World) (raw : List Record)
    (h : w1.clock = w2.clock) :
    (transformRun w1 raw).1 = (transformRun w2 raw).1 ∧
    (transformRun w1 raw).2 = w1 ∧ (transformRun w2 raw).2 = w2 := by
  refine ⟨?_, rfl, rfl⟩
  simp [transformRun, h]

/-- Witness for C8: two worlds with equal clocks but different archives. -/
theorem transform_deterministic_witness :
    (transformRun ⟨5, []⟩ [bitcoinRaw]).1 =
      (transformRun ⟨5, [[bitcoinRaw]]⟩ [bitcoinRaw]).1 :=
  (transform_deterministic ⟨5, []⟩ ⟨5, [[bitcoinRaw]]⟩ [bitcoinRaw] rfl).1

/-- C6.  `validate_response` accepts exactly the payloads that decode to a
non-empty list of records each carrying every required field; any other
payload — a non-list, an empty list, or a list with one record missing one
required field — makes the whole call raise, with no partial acceptance. -/
theorem validate_response_rejects (p : Payload) :
    (∃ b, validate_response p = .ok b) ↔
      ∃ l, p = .arr l ∧ l ≠ [] ∧
        ∀ r ∈ l, ∀ f ∈ required_fields, hasKey r f := by
  cases p with
  | nonArray => simp [validate_response]
  | malformed => simp [validate_response]
  | arr l =>
      by_cases hl : l = []
      · subst hl; simp [validate_response]
      · cases hf : l.findSome? firstMissing with
        | some f =>
            constructor
            · rintro ⟨b, hb⟩
              simp [validate_response, hl, hf] at hb
            · rintro ⟨l', hl', hne, hall⟩
              injection hl' with hl'
              subst hl'
              obtain ⟨rec, hrec, hfm⟩ := List.exists_of_findSome?_eq_some hf
              unfold firstMissing at hfm
              have hmem := List.mem_of_find?_eq_some hfm
              have hprop := List.find?_some hfm
              have := hall rec hrec f hmem
              simp [this] at hprop
        | none =>
            constructor
            · intro _
              refine ⟨l, rfl, hl, ?_⟩
              intro rec hrec f hfm
              have hnone := List.findSome?_eq_none_iff.mp hf rec hrec
              unfold firstMissing at hnone
              have := List.find?_eq_none.mp hnone f hfm
              simpa using this
            · intro _
              exact ⟨true, by simp [validate_response, hl, hf]⟩

/-- A well-formed payload record carrying all five required fields. -/
def goodPayloadRec : Record :=
  [("id", .vstr "bitcoin"), ("symbol", .vstr "btc"), ("name", .vstr "Bitcoin"),
   ("current_price", .vnum 50000), ("market_cap", .vnum 1000000000000)]

/-- Witness for C6: a well-formed singleton payload is accepted. -/
theorem validate_response_rejects_witness :
    ∃ b, validate_response (.arr [goodPayloadRec]) = .ok b :=
  (validate_response_rejects (.arr [goodPayloadRec])).mpr
    ⟨[goodPayloadRec], rfl, by decide, by decide⟩

/-- Counterexample for C7 as frozen: on HTTP 429 the extractor raises the
builtin `Exception` class, not a typed `RateLimitError` — no such class
exists anywhere in the code. -/
theorem rate_limit_typed_error_cex :
    extract_crypto_data (fun _ => .ok ⟨429, .nonArray⟩) =
      .error ⟨"Exception", "Rate limited - please try again later"⟩ ∧
    "Exception" ≠ "RateLimitError" := by
  exact ⟨by decide, by decide⟩

/-- C7 (amended).  On an HTTP 429 the extractor fails fast by raising a
plain `Exception` with the rate-limit message (re-raised unchanged by the
catch-all handler), and it performs no internal retry: the outcome depends
only on the single first request. -/
theorem rate_limit_fails_fast (attempts : Nat → Except PyExc HttpResponse)
    (resp : HttpResponse) (h0 : attempts 0 = .ok resp)
    (h429 : resp.status = 429) :
    extract_crypto_data attempts =
      .error ⟨"Exception", "Rate limited - please try again later"⟩ ∧
    ∀ attempts2 : Nat → Except PyExc HttpResponse, attempts2 0 = attempts 0 →
      extract_crypto_data attempts2 = extract_crypto_data attempts := by
  constructor
  · unfold extract_crypto_data
    rw [h0]
    simp [h429]
  · intro a2 he
    unfold extract_crypto_data
    rw [he]

/-- Witness for C7: a concrete 429 response. -/
theorem rate_limit_fails_fast_witness :
    extract_crypto_data (fun _ => .ok ⟨429, .nonArray⟩) =
      .error ⟨"Exception", "Rate limited - please try again later"⟩ :=
  (rate_limit_fails_fast (fun _ => .ok ⟨429, .nonArray⟩)
    ⟨429, .nonArray⟩ rfl rfl).1

end CryptoETL
